import Mathlib

/-
Verification of the hierarchical-matrix core (lib/hmat/hmatrix_impl.hpp) and
the piecewise-constant scalar space (lib/space/piecewise_constant_scalar_space.cpp)
of the bempp repository, as a shallow embedding in Lean 4.

Scalars are modelled by the exact field of rationals (the source is templated on
a real or complex scalar type; the claims are about exact algebraic structure,
stated "within floating-point tolerance" in the spec, which the exact model
captures).  Eigen dense matrices are modelled as a pair of dimensions plus a
total entry function; entries outside the stated dimensions are unobservable.
-/

namespace HMat

variable {R : Type} [CommRing R] [DecidableEq R]

/-- Eigen dense matrix (Matrix<ValueType>): dimensions plus entry function. -/
structure Mat (R : Type) where
  rows : Nat
  cols : Nat
  entries : Nat → Nat → R

/-- Y.zeros(): same shape, all entries zero. -/
def Mat.zeros (m : Mat R) : Mat R := ⟨m.rows, m.cols, fun _ _ => 0⟩

/-- Y *= beta: entrywise scaling, shape preserved. -/
def Mat.scale (m : Mat R) (beta : R) : Mat R := ⟨m.rows, m.cols, fun i j => beta * m.entries i j⟩

/-- mat.block(startRow, 0, len, mat.cols()): the rows [startRow, startRow+len) of mat
(all columns), as used for the per-leaf slices in HMatrix::apply. -/
def Mat.block (m : Mat R) (startRow len : Nat) : Mat R :=
  ⟨len, m.cols, fun i j => m.entries (startRow + i) j⟩

/-- Writing a block of rows back into the parent matrix: the in-place update of the
yPermuted accumulator performed through the Eigen::Map in HMatrix::apply. -/
def Mat.writeBlock (m : Mat R) (startRow : Nat) (blk : Mat R) (len : Nat) : Mat R :=
  ⟨m.rows, m.cols, fun i j =>
    if startRow ≤ i ∧ i < startRow + len then blk.entries (i - startRow) j else m.entries i j⟩

/-- ClusterTree<N> interface as used by hmatrix_impl.hpp: a degree-of-freedom count and
the two index maps between original and hierarchical (permuted) orderings. -/
structure ClusterTree where
  numberOfDofs : Nat
  mapOriginalDofToHMatDof : Nat → Nat
  mapHMatDofToOriginalDof : Nat → Nat

/-- The spec's cluster-tree invariant (section 4.1): the two index maps are total,
into-range, and mutually inverse bijections on [0, numberOfDofs). -/
def ClusterTree.IsPermutation (ct : ClusterTree) : Prop :=
  (∀ i, i < ct.numberOfDofs →
    ct.mapOriginalDofToHMatDof i < ct.numberOfDofs ∧
    ct.mapHMatDofToOriginalDof (ct.mapOriginalDofToHMatDof i) = i) ∧
  (∀ i, i < ct.numberOfDofs →
    ct.mapHMatDofToOriginalDof i < ct.numberOfDofs ∧
    ct.mapOriginalDofToHMatDof (ct.mapHMatDofToOriginalDof i) = i)

instance (ct : ClusterTree) : Decidable ct.IsPermutation := by
  unfold ClusterTree.IsPermutation; infer_instance

/-- BlockClusterTreeNode<N> as read by hmatrix_impl.hpp: the materialized half-open
index ranges of its row and column cluster-tree nodes
(data().rowClusterTreeNode->data().indexRange and the column analogue). -/
structure BlockClusterTreeNode where
  rowIndexRange : Nat × Nat
  colIndexRange : Nat × Nat
deriving DecidableEq

/-- BlockClusterTree<N> interface as used by hmatrix_impl.hpp: the two cluster trees
and the finite enumeration of leaf nodes. -/
structure BlockClusterTree where
  rowClusterTree : ClusterTree
  columnClusterTree : ClusterTree
  leafNodes : List BlockClusterTreeNode

/-- Modelled from the spec (section 4.5): rows() comes from the row cluster tree's
numberOfDofs() (block_cluster_tree.hpp is not part of the sources). -/
def BlockClusterTree.rows (t : BlockClusterTree) : Nat := t.rowClusterTree.numberOfDofs

/-- Modelled from the spec (section 4.5): columns() comes from the column cluster
tree's numberOfDofs(). -/
def BlockClusterTree.columns (t : BlockClusterTree) : Nat := t.columnClusterTree.numberOfDofs

/-- TransposeMode as branched on by HMatrix::apply. -/
inductive TransposeMode
  | NOTRANS
  | TRANS
deriving DecidableEq

/-- RowColSelector (ROW / COL) selecting which cluster tree a permutation addresses. -/
inductive RowColSelector
  | ROW
  | COL
deriving DecidableEq

/-- Modelled from the spec: HMatrixData R (hmatrix_data.hpp / hmatrix_dense_data.hpp are
not among the sources).  Per the Block Data contract of spec section 4.3, every
variant (dense or compressed) behaves under apply exactly as the matrix it
represents, so Block Data is modelled by its represented matrix. -/
structure HMatrixData (R : Type) where
  rows : Nat
  cols : Nat
  entries : Nat → Nat → R

/-- Modelled from the spec (section 4.3): Block Data apply computes
yBlock := alpha * op(block) * xBlock + beta * yBlock, with op per transposeMode. -/
def HMatrixData.apply (d : HMatrixData R) (xBlock yBlock : Mat R) (trans : TransposeMode)
    (alpha beta : R) : Mat R :=
  match trans with
  | .NOTRANS =>
    ⟨yBlock.rows, yBlock.cols, fun i j =>
      alpha * (∑ k in Finset.range d.cols, d.entries i k * xBlock.entries k j) +
        beta * yBlock.entries i j⟩
  | .TRANS =>
    ⟨yBlock.rows, yBlock.cols, fun i j =>
      alpha * (∑ k in Finset.range d.rows, d.entries k i * xBlock.entries k j) +
        beta * yBlock.entries i j⟩

/-- HMatrix<ValueType, N>: the shared block cluster tree plus the leaf-keyed Block Data
mapping m_hMatrixData (std::map, modelled as an association list in insertion
order). -/
structure HMatrix (R : Type) where
  blockClusterTree : BlockClusterTree
  m_hMatrixData : List (BlockClusterTreeNode × HMatrixData R)

def HMatrix.rows (h : HMatrix R) : Nat := h.blockClusterTree.rows

def HMatrix.columns (h : HMatrix R) : Nat := h.blockClusterTree.columns

/-- HMatrix::reset: m_hMatrixData.clear(). -/
def HMatrix.reset (h : HMatrix R) : HMatrix R := { h with m_hMatrixData := [] }

/-- HMatrix::isInitialized: !m_hMatrixData.empty(). -/
def HMatrix.isInitialized (h : HMatrix R) : Bool := !h.m_hMatrixData.isEmpty

/-- The leaf loop of HMatrix::initialize: for each leaf node, invoke
compressBlock and store the result keyed by the node.  A compressor failure
(a C++ exception) aborts the loop; the entries already inserted into the map
remain, exactly as in the source, and the error is reported alongside. -/
def initializeLoop (compressBlock : BlockClusterTreeNode → Except String (HMatrixData R)) :
    List BlockClusterTreeNode → List (BlockClusterTreeNode × HMatrixData R) →
    List (BlockClusterTreeNode × HMatrixData R) × Option String
  | [], acc => (acc, none)
  | node :: rest, acc =>
    match compressBlock node with
    | .error e => (acc, some e)
    | .ok nodeData => initializeLoop compressBlock rest (acc ++ [(node, nodeData)])

/-- HMatrix::initialize: reset(), then compress every leaf of the block cluster tree,
storing each result in m_hMatrixData.  The Option String component is the C++
exception escaping initialize, if any. -/
def HMatrix.initialize (h : HMatrix R)
    (compressBlock : BlockClusterTreeNode → Except String (HMatrixData R)) :
    HMatrix R × Option String :=
  let r := initializeLoop compressBlock h.blockClusterTree.leafNodes (h.reset).m_hMatrixData
  ({ h with m_hMatrixData := r.1 }, r.2)

/-- The one-argument HMatrix constructor: stores the tree, empty data mapping. -/
def HMatrix.mkFromBlockClusterTree (t : BlockClusterTree) : HMatrix R := ⟨t, []⟩

/-- The two-argument HMatrix constructor: delegates to the one-argument constructor and
then calls initialize.  If initialize throws, construction fails and no object
exists, hence the Except result. -/
def HMatrix.mkWithCompressor (t : BlockClusterTree)
    (compressBlock : BlockClusterTreeNode → Except String (HMatrixData R)) :
    Except String (HMatrix R) :=
  match HMatrix.initialize (HMatrix.mkFromBlockClusterTree t) compressBlock with
  | (h, none) => .ok h
  | (_, some e) => .error e

/-- The addressed cluster tree of a ROW / COL selector, the if/else shared by both
permutation methods. -/
def HMatrix.addressedClusterTree (h : HMatrix R) (rowOrColumn : RowColSelector) : ClusterTree :=
  match rowOrColumn with
  | .ROW => h.blockClusterTree.rowClusterTree
  | .COL => h.blockClusterTree.columnClusterTree

/-- The permutation loop common to both permutation methods: for each source row
i < mat.rows the row p i of the output receives row i of mat, later writes winning
(the C++ loop runs i ascending, hence the reverse-order search).  Rows never
written keep the fresh (zero-modelled) allocation. -/
def permuteCore (p : Nat → Nat) (mat : Mat R) : Mat R :=
  ⟨mat.rows, mat.cols, fun i j =>
    match (List.range mat.rows).reverse.find? (fun r => p r == i) with
    | some r => mat.entries r j
    | none => 0⟩

/-- HMatrix::permuteMatToHMatDofs: checks the row count against the addressed cluster
tree, then scatters row i to row mapOriginalDofToHMatDof(i). -/
def HMatrix.permuteMatToHMatDofs (h : HMatrix R) (mat : Mat R) (rowOrColumn : RowColSelector) :
    Except String (Mat R) :=
  let clusterTree := h.addressedClusterTree rowOrColumn
  if clusterTree.numberOfDofs ≠ mat.rows then
    .error "HMatrix::permuteMatToHMatDofs: Input matrix has wrong number of rows."
  else
    .ok (permuteCore clusterTree.mapOriginalDofToHMatDof mat)

/-- HMatrix::permuteMatToOriginalDofs: checks the row count against the addressed
cluster tree, then scatters row i to row mapHMatDofToOriginalDof(i). -/
def HMatrix.permuteMatToOriginalDofs (h : HMatrix R) (mat : Mat R) (rowOrColumn : RowColSelector) :
    Except String (Mat R) :=
  let clusterTree := h.addressedClusterTree rowOrColumn
  if clusterTree.numberOfDofs ≠ mat.rows then
    .error "HMatrix::permuteMatToOriginalDofs: Input matrix has wrong number of rows."
  else
    .ok (permuteCore clusterTree.mapHMatDofToOriginalDof mat)

/-- permuteMatToHMatDofs is a const method returning a fresh matrix: calling it leaves
the HMatrix R itself unchanged, so a call is the unchanged state paired with the
returned value. -/
def HMatrix.permuteMatToHMatDofsCall (h : HMatrix R) (mat : Mat R)
    (rowOrColumn : RowColSelector) : HMatrix R × Except String (Mat R) :=
  (h, h.permuteMatToHMatDofs mat rowOrColumn)

/-- The body of the per-leaf lambda in HMatrix::apply: select input/output index
ranges by transpose mode, slice the permuted input and the accumulator, and let the
leaf's Block Data accumulate (beta = 1) into its output slice. -/
def applyLeafStep (trans : TransposeMode) (alpha : R) (xPermuted : Mat R) (yAcc : Mat R)
    (elem : BlockClusterTreeNode × HMatrixData R) : Mat R :=
  let inputRange :=
    if trans = TransposeMode.NOTRANS then elem.1.colIndexRange else elem.1.rowIndexRange
  let outputRange :=
    if trans = TransposeMode.NOTRANS then elem.1.rowIndexRange else elem.1.colIndexRange
  let xDataBlock := xPermuted.block inputRange.1 (inputRange.2 - inputRange.1)
  let yDataBlock := yAcc.block outputRange.1 (outputRange.2 - outputRange.1)
  yAcc.writeBlock outputRange.1 (elem.2.apply xDataBlock yDataBlock trans alpha 1)
    (outputRange.2 - outputRange.1)

/-- HMatrix::apply: scale (or zero) Y, permute X and Y into hierarchical ordering,
accumulate every leaf's contribution, and permute the accumulator back — with ROW,
for either transpose mode, exactly as in the source (line 158). -/
def HMatrix.apply (h : HMatrix R) (X Y : Mat R) (trans : TransposeMode) (alpha beta : R) :
    Except String (Mat R) := do
  let yScaled := if beta = 0 then Y.zeros else Y.scale beta
  let xPermuted ←
    if trans = TransposeMode.NOTRANS then h.permuteMatToHMatDofs X RowColSelector.COL
    else h.permuteMatToHMatDofs X RowColSelector.ROW
  let yPermuted ←
    if trans = TransposeMode.NOTRANS then h.permuteMatToHMatDofs yScaled RowColSelector.ROW
    else h.permuteMatToHMatDofs yScaled RowColSelector.COL
  let yAccum := h.m_hMatrixData.foldl (applyLeafStep trans alpha xPermuted) yPermuted
  h.permuteMatToOriginalDofs yAccum RowColSelector.ROW

/-- Observing one entry of an apply / permute result, for concrete evaluation. -/
def getEntry (r : Except String (Mat R)) (i j : Nat) : Option R :=
  match r with
  | .ok m => some (m.entries i j)
  | .error _ => none

/-- A leaf node has Block Data when m_hMatrixData holds an entry keyed by it. -/
def HMatrix.leafHasData (h : HMatrix R) (node : BlockClusterTreeNode) : Bool :=
  h.m_hMatrixData.any (fun e => e.1 = node)

/-- Every leaf of the block cluster tree has Block Data. -/
def HMatrix.everyLeafHasData (h : HMatrix R) : Bool :=
  h.blockClusterTree.leafNodes.all (fun node => h.leafHasData node)

end HMat

namespace Bempp

/-- LocalDof(entityIndex, dofIndex) of the space module. -/
structure LocalDof where
  entityIndex : Nat
  dofIndex : Nat
deriving DecidableEq

/-- The DOF-assignment state of PiecewiseConstantScalarSpace: the element count of the
grid view, the per-element global-DOF lists (std::vector indexed by entity index,
modelled as a total function; writes stay inside [0, elementCount)), and the
per-global-DOF local-DOF lists. -/
structure SpaceState where
  elementCount : Nat
  m_local2globalDofs : Nat → List Int
  m_global2localDofs : List (List LocalDof)

/-- The iteration of PiecewiseConstantScalarSpace::assignDofsImpl: walk the elements in
grid-view iteration order (each carrying its mapper entity index); an element inside
the segment books the next consecutive global DOF and registers its single local DOF,
an element outside receives global DOF -1. -/
def assignDofsLoop (segmentContains : Nat → Bool) :
    List Nat → (Nat → List Int) → List (List LocalDof) → Int →
    (Nat → List Int) × List (List LocalDof) × Int
  | [], local2globalDofs, global2localDofs, globalDofCount =>
    (local2globalDofs, global2localDofs, globalDofCount)
  | index :: rest, local2globalDofs, global2localDofs, globalDofCount =>
    if segmentContains index then
      assignDofsLoop segmentContains rest
        (fun x => if x = index then [globalDofCount] else local2globalDofs x)
        (global2localDofs ++ [[⟨index, 0⟩]]) (globalDofCount + 1)
    else
      assignDofsLoop segmentContains rest
        (fun x => if x = index then [-1] else local2globalDofs x)
        global2localDofs globalDofCount

/-- PiecewiseConstantScalarSpace::assignDofsImpl: (re)initialise the member vectors
(cleared / resized to empty per-element lists) and run the assignment loop over the
grid view's elements. -/
def assignDofsImpl (elementCount : Nat) (elements : List Nat)
    (segmentContains : Nat → Bool) : SpaceState :=
  let r := assignDofsLoop segmentContains elements (fun _ => []) [] 0
  ⟨elementCount, r.1, r.2.1⟩

/-- PiecewiseConstantScalarSpace::globalDofCount: m_global2localDofs.size(). -/
def SpaceState.globalDofCount (s : SpaceState) : Nat := s.m_global2localDofs.length

/-- GeometryType as queried by elementVariant: dimension and triangle-ness. -/
structure GeometryType where
  dim : Nat
  isTriangle : Bool
deriving DecidableEq

/-- PiecewiseConstantScalarSpace::elementVariant: 2 for dimension-1 elements, else 3
for triangles and 4 otherwise. -/
def elementVariant (element : GeometryType) : Int :=
  if element.dim = 1 then 2
  else if element.isTriangle then 3
  else 4

/-- PiecewiseConstantScalarSpace::setElementVariant: element variants are unmodifiable
for this space, so any variant differing from elementVariant(element) throws; nothing
is ever written, so the state is returned unchanged in both outcomes. -/
def setElementVariant (s : SpaceState) (element : GeometryType) (variant : Int) :
    SpaceState × Option String :=
  if variant ≠ elementVariant element then
    (s, some "PiecewiseConstantScalarSpace::setElementVariant(): invalid variant")
  else
    (s, none)

end Bempp

namespace HMat

variable {R : Type} [CommRing R] [DecidableEq R]

theorem permuteCore_rows (p : Nat → Nat) (mat : Mat R) : (permuteCore p mat).rows = mat.rows :=
  rfl

theorem permuteCore_cols (p : Nat → Nat) (mat : Mat R) : (permuteCore p mat).cols = mat.cols :=
  rfl

theorem permuteCore_entry (p : Nat → Nat) (mat : Mat R)
    (hinj : ∀ a b, a < mat.rows → b < mat.rows → p a = p b → a = b)
    (i : Nat) (hi : i < mat.rows) (j : Nat) :
    (permuteCore p mat).entries (p i) j = mat.entries i j := by
  show (match (List.range mat.rows).reverse.find? (fun r => p r == p i) with
    | some r => mat.entries r j
    | none => 0) = mat.entries i j
  cases hfind : (List.range mat.rows).reverse.find? (fun r => p r == p i) with
  | none =>
    exfalso
    have hmem : i ∈ (List.range mat.rows).reverse := by
      simpa using hi
    have := List.find?_eq_none.mp hfind i hmem
    simp at this
  | some r =>
    have hpr := List.find?_some hfind
    have hrmem := List.mem_of_find?_eq_some hfind
    have hr : r < mat.rows := by simpa using hrmem
    have hpe : p r = p i := by simpa using hpr
    simp only
    rw [hinj r i hr hi hpe]

theorem permuteCore_zeros (p : Nat → Nat) (mat : Mat R) (i j : Nat) :
    (permuteCore p (Mat.zeros mat)).entries i j = 0 := by
  rcases hf : (List.range mat.rows).reverse.find? (fun r => p r == i) with _ | r <;>
    simp [permuteCore, Mat.zeros, hf]

theorem permuteCore_round_trip (p q : Nat → Nat) (mat : Mat R)
    (hpq : ∀ i, i < mat.rows → p i < mat.rows ∧ q (p i) = i)
    (hpinj : ∀ a b, a < mat.rows → b < mat.rows → p a = p b → a = b)
    (hqinj : ∀ a b, a < mat.rows → b < mat.rows → q a = q b → a = b)
    (i : Nat) (hi : i < mat.rows) (j : Nat) :
    (permuteCore q (permuteCore p mat)).entries i j = mat.entries i j := by
  have e1 : (permuteCore q (permuteCore p mat)).entries (q (p i)) j =
      (permuteCore p mat).entries (p i) j :=
    permuteCore_entry q (permuteCore p mat) hqinj (p i) (hpq i hi).1 j
  have e2 : (permuteCore p mat).entries (p i) j = mat.entries i j :=
    permuteCore_entry p mat hpinj i hi j
  rw [(hpq i hi).2] at e1
  rw [e1, e2]

theorem ClusterTree.IsPermutation.origInj {ct : ClusterTree} (hp : ct.IsPermutation) :
    ∀ a b, a < ct.numberOfDofs → b < ct.numberOfDofs →
      ct.mapOriginalDofToHMatDof a = ct.mapOriginalDofToHMatDof b → a = b := by
  intro a b ha hb he
  have h1 := (hp.1 a ha).2
  have h2 := (hp.1 b hb).2
  rw [← h1, ← h2, he]

theorem ClusterTree.IsPermutation.hmatInj {ct : ClusterTree} (hp : ct.IsPermutation) :
    ∀ a b, a < ct.numberOfDofs → b < ct.numberOfDofs →
      ct.mapHMatDofToOriginalDof a = ct.mapHMatDofToOriginalDof b → a = b := by
  intro a b ha hb he
  have h1 := (hp.2 a ha).2
  have h2 := (hp.2 b hb).2
  rw [← h1, ← h2, he]

/-- C3: for a cluster tree whose index maps are mutually inverse bijections on
[0, numberOfDofs), and a dense matrix with exactly numberOfDofs rows,
permuteMatToOriginalDofs after permuteMatToHMatDofs (with the same ROW/COL selector)
returns the original matrix. -/
theorem permute_round_trip (h : HMatrix R) (mat : Mat R) (rc : RowColSelector)
    (hperm : (h.addressedClusterTree rc).IsPermutation)
    (hrows : mat.rows = (h.addressedClusterTree rc).numberOfDofs) :
    ∃ m1 m2, h.permuteMatToHMatDofs mat rc = Except.ok m1 ∧
      h.permuteMatToOriginalDofs m1 rc = Except.ok m2 ∧
      m2.rows = mat.rows ∧ m2.cols = mat.cols ∧
      ∀ i, i < mat.rows → ∀ j, j < mat.cols → m2.entries i j = mat.entries i j := by
  have hct : ¬((h.addressedClusterTree rc).numberOfDofs ≠ mat.rows) := by omega
  refine ⟨permuteCore (h.addressedClusterTree rc).mapOriginalDofToHMatDof mat,
    permuteCore (h.addressedClusterTree rc).mapHMatDofToOriginalDof
      (permuteCore (h.addressedClusterTree rc).mapOriginalDofToHMatDof mat),
    ?_, ?_, rfl, rfl, ?_⟩
  · unfold HMatrix.permuteMatToHMatDofs
    rw [if_neg hct]
  · unfold HMatrix.permuteMatToOriginalDofs
    rw [if_neg]
    exact hct
  · intro i hi j _
    refine permuteCore_round_trip _ _ mat ?_ ?_ ?_ i hi j
    · intro a ha
      exact ⟨hrows ▸ (hperm.1 a (hrows ▸ ha)).1, (hperm.1 a (hrows ▸ ha)).2⟩
    · intro a b ha hb
      exact hperm.origInj a b (hrows ▸ ha) (hrows ▸ hb)
    · intro a b ha hb
      exact hperm.hmatInj a b (hrows ▸ ha) (hrows ▸ hb)

/-- Witness for C3: a concrete 2-DOF swap permutation round-trips a concrete
2-by-1 matrix. -/
theorem permute_round_trip_witness :
    ((HMatrix.addressedClusterTree
        (⟨⟨⟨2, fun i => 1 - i, fun i => 1 - i⟩, ⟨2, fun i => i, fun i => i⟩, []⟩, []⟩ :
          HMatrix ℤ)
        RowColSelector.ROW).IsPermutation ∧
      (2 : Nat) = (HMatrix.addressedClusterTree
        (⟨⟨⟨2, fun i => 1 - i, fun i => 1 - i⟩, ⟨2, fun i => i, fun i => i⟩, []⟩, []⟩ :
          HMatrix ℤ)
        RowColSelector.ROW).numberOfDofs) ∧
    (∃ m1 m2, HMatrix.permuteMatToHMatDofs
        (⟨⟨⟨2, fun i => 1 - i, fun i => 1 - i⟩, ⟨2, fun i => i, fun i => i⟩, []⟩, []⟩ :
          HMatrix ℤ)
        ⟨2, 1, fun i _ => (i : ℤ)⟩ RowColSelector.ROW = Except.ok m1 ∧
      HMatrix.permuteMatToOriginalDofs
        (⟨⟨⟨2, fun i => 1 - i, fun i => 1 - i⟩, ⟨2, fun i => i, fun i => i⟩, []⟩, []⟩ :
          HMatrix ℤ)
        m1 RowColSelector.ROW = Except.ok m2 ∧
      m2.rows = (⟨2, 1, fun i _ => (i : ℤ)⟩ : Mat ℤ).rows ∧
      m2.cols = (⟨2, 1, fun i _ => (i : ℤ)⟩ : Mat ℤ).cols ∧
      ∀ i, i < (⟨2, 1, fun i _ => (i : ℤ)⟩ : Mat ℤ).rows →
        ∀ j, j < (⟨2, 1, fun i _ => (i : ℤ)⟩ : Mat ℤ).cols →
          m2.entries i j = (⟨2, 1, fun i _ => (i : ℤ)⟩ : Mat ℤ).entries i j) :=
  ⟨⟨by decide, by decide⟩,
    permute_round_trip _ _ _ (by decide) (by decide)⟩

/-- C5: a matrix whose row count differs from the addressed cluster tree's
numberOfDofs makes permuteMatToHMatDofs fail with the shape-mismatch error, and the
call leaves the HMatrix R unchanged. -/
theorem permuteMatToHMatDofs_shape_mismatch (h : HMatrix R) (mat : Mat R)
    (rc : RowColSelector)
    (hmis : mat.rows ≠ (h.addressedClusterTree rc).numberOfDofs) :
    h.permuteMatToHMatDofsCall mat rc =
      (h, Except.error "HMatrix::permuteMatToHMatDofs: Input matrix has wrong number of rows.") := by
  unfold HMatrix.permuteMatToHMatDofsCall HMatrix.permuteMatToHMatDofs
  rw [if_pos]
  omega

/-- Witness for C5: a 2-row matrix against a 1-DOF cluster tree. -/
theorem permuteMatToHMatDofs_shape_mismatch_witness :
    ((⟨2, 1, fun _ _ => 0⟩ : Mat ℤ).rows ≠
      (HMatrix.addressedClusterTree
        (⟨⟨⟨1, fun i => i, fun i => i⟩, ⟨1, fun i => i, fun i => i⟩, []⟩, []⟩ : HMatrix ℤ)
        RowColSelector.ROW).numberOfDofs) ∧
    HMatrix.permuteMatToHMatDofsCall
        (⟨⟨⟨1, fun i => i, fun i => i⟩, ⟨1, fun i => i, fun i => i⟩, []⟩, []⟩ : HMatrix ℤ)
        ⟨2, 1, fun _ _ => 0⟩ RowColSelector.ROW =
      (⟨⟨⟨1, fun i => i, fun i => i⟩, ⟨1, fun i => i, fun i => i⟩, []⟩, []⟩,
        Except.error "HMatrix::permuteMatToHMatDofs: Input matrix has wrong number of rows.") :=
  ⟨by decide, permuteMatToHMatDofs_shape_mismatch _ _ _ (by decide)⟩

end HMat

namespace Bempp

/-- C10: setElementVariant reports an error exactly when the requested variant differs
from elementVariant(element), and in both outcomes the space state is unchanged. -/
theorem setElementVariant_spec (s : SpaceState) (element : GeometryType) (variant : Int) :
    ((setElementVariant s element variant).2.isSome ↔ variant ≠ elementVariant element) ∧
    (setElementVariant s element variant).1 = s := by
  unfold setElementVariant
  by_cases hv : variant = elementVariant element
  · simp [hv]
  · simp [hv]

end Bempp

namespace HMat

variable {R : Type} [CommRing R] [DecidableEq R]

theorem initializeLoop_mem_acc (compressBlock : BlockClusterTreeNode → Except String (HMatrixData R)) :
    ∀ (L : List BlockClusterTreeNode) (acc : List (BlockClusterTreeNode × HMatrixData R))
      (x : BlockClusterTreeNode × HMatrixData R), x ∈ acc →
      x ∈ (initializeLoop compressBlock L acc).1 := by
  intro L
  induction L with
  | nil => intro acc x hx; exact hx
  | cons node rest ih =>
    intro acc x hx
    unfold initializeLoop
    cases compressBlock node with
    | error e => exact hx
    | ok d => exact ih (acc ++ [(node, d)]) x (List.mem_append_left _ hx)

theorem initializeLoop_none_spec (compressBlock : BlockClusterTreeNode → Except String (HMatrixData R)) :
    ∀ (L : List BlockClusterTreeNode) (acc : List (BlockClusterTreeNode × HMatrixData R)),
      (initializeLoop compressBlock L acc).2 = none →
      ∃ ds : List (BlockClusterTreeNode × HMatrixData R),
        (initializeLoop compressBlock L acc).1 = acc ++ ds ∧ ds.map Prod.fst = L := by
  intro L
  induction L with
  | nil =>
    intro acc _
    exact ⟨[], by simp [initializeLoop], rfl⟩
  | cons node rest ih =>
    intro acc hnone
    unfold initializeLoop at hnone ⊢
    cases hc : compressBlock node with
    | error e => rw [hc] at hnone; exact absurd hnone (by simp)
    | ok d =>
      rw [hc] at hnone
      obtain ⟨ds, heq, hmap⟩ := ih (acc ++ [(node, d)]) hnone
      exact ⟨(node, d) :: ds, by rw [heq]; simp, by simp [hmap]⟩

/-- C4 counterexample: a 2-leaf block cluster tree whose compressor succeeds on the
first leaf and fails on the second: initialize reports the failure, but the matrix
reports initialized while the second leaf has no Block Data, so neither the claimed
iff nor the claimed as-a-whole-uninitialized failure state holds in the code. -/
theorem initialize_partial_failure_cex :
    ( HMatrix.initialize
        ⟨⟨⟨2, fun i => i, fun i => i⟩, ⟨2, fun i => i, fun i => i⟩,
          [⟨(0, 1), (0, 2)⟩, ⟨(1, 2), (0, 2)⟩]⟩, []⟩
        (fun node => if node = ⟨(0, 1), (0, 2)⟩ then Except.ok (⟨1, 2, fun _ _ => 0⟩ : HMatrixData ℤ)
          else Except.error "compression failed")).2.isSome = true ∧
    ( HMatrix.initialize
        ⟨⟨⟨2, fun i => i, fun i => i⟩, ⟨2, fun i => i, fun i => i⟩,
          [⟨(0, 1), (0, 2)⟩, ⟨(1, 2), (0, 2)⟩]⟩, []⟩
        (fun node => if node = ⟨(0, 1), (0, 2)⟩ then Except.ok (⟨1, 2, fun _ _ => 0⟩ : HMatrixData ℤ)
          else Except.error "compression failed")).1.isInitialized = true ∧
    ( HMatrix.initialize
        ⟨⟨⟨2, fun i => i, fun i => i⟩, ⟨2, fun i => i, fun i => i⟩,
          [⟨(0, 1), (0, 2)⟩, ⟨(1, 2), (0, 2)⟩]⟩, []⟩
        (fun node => if node = ⟨(0, 1), (0, 2)⟩ then Except.ok (⟨1, 2, fun _ _ => 0⟩ : HMatrixData ℤ)
          else Except.error "compression failed")).1.everyLeafHasData = false := by
  decide

/-- C4 amended: isInitialized is non-emptiness of the Block Data mapping.  When
initialize completes without a compressor failure, every leaf of the block cluster
tree has Block Data and isInitialized is true exactly when the tree has at least one
leaf; a compressor failure propagates out of initialize but may leave Block Data of
already-compressed leaves stored, so the matrix need not read back as uninitialized. -/
theorem initialize_success_spec (h : HMatrix R)
    (compressBlock : BlockClusterTreeNode → Except String (HMatrixData R))
    (hok : ( HMatrix.initialize h compressBlock).2 = none) :
    ( HMatrix.initialize h compressBlock).1.everyLeafHasData = true ∧
    ( HMatrix.initialize h compressBlock).1.isInitialized =
      !h.blockClusterTree.leafNodes.isEmpty := by
  have hok' : (initializeLoop compressBlock h.blockClusterTree.leafNodes []).2 = none := hok
  obtain ⟨ds, heq, hmap⟩ :=
    initializeLoop_none_spec compressBlock h.blockClusterTree.leafNodes [] hok'
  rw [List.nil_append] at heq
  constructor
  · unfold HMatrix.everyLeafHasData HMatrix.leafHasData
    rw [List.all_eq_true]
    intro node hnode
    have : node ∈ ds.map Prod.fst := hmap ▸ hnode
    obtain ⟨e, he, hfst⟩ := List.mem_map.mp this
    show ( HMatrix.initialize h compressBlock).1.m_hMatrixData.any _ = true
    have hdata : ( HMatrix.initialize h compressBlock).1.m_hMatrixData = ds := heq
    rw [hdata, List.any_eq_true]
    exact ⟨e, he, by simp [hfst]⟩
  · unfold HMatrix.isInitialized
    have hdata : ( HMatrix.initialize h compressBlock).1.m_hMatrixData = ds := heq
    rw [hdata]
    have hlen : ds.length = h.blockClusterTree.leafNodes.length := by
      rw [← hmap, List.length_map]
    rcases ds with _ | ⟨d, ds'⟩
    · rcases hL : h.blockClusterTree.leafNodes with _ | ⟨n, L'⟩
      · rfl
      · rw [hL] at hlen; simp at hlen
    · rcases hL : h.blockClusterTree.leafNodes with _ | ⟨n, L'⟩
      · rw [hL] at hlen; simp at hlen
      · rfl

/-- Witness for C4's amended theorem: a concrete 1-leaf tree with a succeeding
compressor makes initialize succeed with every leaf covered and the matrix
initialized. -/
theorem initialize_success_spec_witness :
    (( HMatrix.initialize
        ⟨⟨⟨1, fun i => i, fun i => i⟩, ⟨1, fun i => i, fun i => i⟩, [⟨(0, 1), (0, 1)⟩]⟩, []⟩
        (fun _ => Except.ok (⟨1, 1, fun _ _ => 0⟩ : HMatrixData ℤ))).2 = none) ∧
    (( HMatrix.initialize
        ⟨⟨⟨1, fun i => i, fun i => i⟩, ⟨1, fun i => i, fun i => i⟩, [⟨(0, 1), (0, 1)⟩]⟩, []⟩
        (fun _ => Except.ok (⟨1, 1, fun _ _ => 0⟩ : HMatrixData ℤ))).1.everyLeafHasData = true ∧
      ( HMatrix.initialize
        ⟨⟨⟨1, fun i => i, fun i => i⟩, ⟨1, fun i => i, fun i => i⟩, [⟨(0, 1), (0, 1)⟩]⟩, []⟩
        (fun _ => Except.ok (⟨1, 1, fun _ _ => 0⟩ : HMatrixData ℤ))).1.isInitialized =
        !(⟨⟨⟨1, fun i => i, fun i => i⟩, ⟨1, fun i => i, fun i => i⟩,
            [⟨(0, 1), (0, 1)⟩]⟩, []⟩ : HMatrix ℤ).blockClusterTree.leafNodes.isEmpty) :=
  ⟨by decide, initialize_success_spec _ _ (by decide)⟩

/-- C8: when construction succeeds, the two-argument constructor produces exactly the
state obtained by the one-argument constructor followed by initialize with the same
compressor (full state equality, hence equality of all observables). -/
theorem mkWithCompressor_equiv (t : BlockClusterTree)
    (compressBlock : BlockClusterTreeNode → Except String (HMatrixData R))
    (hok : ( HMatrix.initialize (HMatrix.mkFromBlockClusterTree t) compressBlock).2 = none) :
    HMatrix.mkWithCompressor t compressBlock =
      Except.ok ( HMatrix.initialize (HMatrix.mkFromBlockClusterTree t) compressBlock).1 := by
  unfold HMatrix.mkWithCompressor
  rcases hm : HMatrix.initialize (HMatrix.mkFromBlockClusterTree t) compressBlock with ⟨h1, e1⟩
  rw [hm] at hok
  simp only at hok
  subst hok
  rfl

/-- Witness for C8: a concrete 1-leaf tree and a succeeding compressor. -/
theorem mkWithCompressor_equiv_witness :
    (( HMatrix.initialize
        (HMatrix.mkFromBlockClusterTree
          ⟨⟨1, fun i => i, fun i => i⟩, ⟨1, fun i => i, fun i => i⟩, [⟨(0, 1), (0, 1)⟩]⟩)
        (fun _ => Except.ok (⟨1, 1, fun _ _ => 1⟩ : HMatrixData ℤ))).2 = none) ∧
    HMatrix.mkWithCompressor
        ⟨⟨1, fun i => i, fun i => i⟩, ⟨1, fun i => i, fun i => i⟩, [⟨(0, 1), (0, 1)⟩]⟩
        (fun _ => Except.ok (⟨1, 1, fun _ _ => 1⟩ : HMatrixData ℤ)) =
      Except.ok ( HMatrix.initialize
        (HMatrix.mkFromBlockClusterTree
          ⟨⟨1, fun i => i, fun i => i⟩, ⟨1, fun i => i, fun i => i⟩, [⟨(0, 1), (0, 1)⟩]⟩)
        (fun _ => Except.ok (⟨1, 1, fun _ _ => 1⟩ : HMatrixData ℤ))).1 :=
  ⟨by decide, mkWithCompressor_equiv _ _ (by decide)⟩

/-- C6: apply with beta = 0 never reads Y's prior contents — two calls differing only
in the initial entries of Y (same shape) return identical results, for every
transpose mode and alpha. -/
theorem apply_beta_zero_ignores_Y (h : HMatrix R) (X Y1 Y2 : Mat R) (trans : TransposeMode)
    (alpha : R) (hr : Y1.rows = Y2.rows) (hc : Y1.cols = Y2.cols) :
    h.apply X Y1 trans alpha 0 = h.apply X Y2 trans alpha 0 := by
  have hz : (if (0 : R) = 0 then Y1.zeros else Y1.scale 0) =
      (if (0 : R) = 0 then Y2.zeros else Y2.scale 0) := by
    rw [if_pos rfl, if_pos rfl]
    unfold Mat.zeros
    rw [hr, hc]
  unfold HMatrix.apply
  rw [hz]

/-- Witness for C6: a garbage-filled and a zero-filled 1-by-1 Y give the same
apply result on a concrete matrix. -/
theorem apply_beta_zero_ignores_Y_witness :
    ((⟨1, 1, fun _ _ => 42⟩ : Mat ℤ).rows = (⟨1, 1, fun _ _ => 0⟩ : Mat ℤ).rows ∧
      (⟨1, 1, fun _ _ => 42⟩ : Mat ℤ).cols = (⟨1, 1, fun _ _ => 0⟩ : Mat ℤ).cols) ∧
    HMatrix.apply
        ⟨⟨⟨1, fun i => i, fun i => i⟩, ⟨1, fun i => i, fun i => i⟩, [⟨(0, 1), (0, 1)⟩]⟩,
          [(⟨(0, 1), (0, 1)⟩, (⟨1, 1, fun _ _ => 3⟩ : HMatrixData ℤ))]⟩
        ⟨1, 1, fun _ _ => 2⟩ ⟨1, 1, fun _ _ => 42⟩ TransposeMode.NOTRANS 1 0 =
      HMatrix.apply
        ⟨⟨⟨1, fun i => i, fun i => i⟩, ⟨1, fun i => i, fun i => i⟩, [⟨(0, 1), (0, 1)⟩]⟩,
          [(⟨(0, 1), (0, 1)⟩, (⟨1, 1, fun _ _ => 3⟩ : HMatrixData ℤ))]⟩
        ⟨1, 1, fun _ _ => 2⟩ ⟨1, 1, fun _ _ => 0⟩ TransposeMode.NOTRANS 1 0 :=
  ⟨⟨rfl, rfl⟩, apply_beta_zero_ignores_Y _ _ _ _ _ _ rfl rfl⟩

end HMat

namespace Bempp

theorem assignDofsLoop_preserve (seg : Nat → Bool) :
    ∀ (L : List Nat) (l2g : Nat → List Int) (g2l : List (List LocalDof)) (count : Int)
      (x : Nat), x ∉ L → (assignDofsLoop seg L l2g g2l count).1 x = l2g x := by
  intro L
  induction L with
  | nil => intro l2g g2l count x _; rfl
  | cons e rest ih =>
    intro l2g g2l count x hx
    have hxe : x ≠ e := by
      intro hcontra; exact hx (hcontra ▸ List.mem_cons_self e rest)
    have hxr : x ∉ rest := fun hm => hx (List.mem_cons_of_mem e hm)
    unfold assignDofsLoop
    cases hseg : seg e with
    | true =>
      simp only [hseg, if_true]
      rw [ih _ _ _ x hxr]
      simp [hxe]
    | false =>
      simp only [hseg, Bool.false_eq_true, if_false]
      rw [ih _ _ _ x hxr]
      simp [hxe]

theorem assignDofsLoop_g2l (seg : Nat → Bool) :
    ∀ (L : List Nat) (l2g : Nat → List Int) (g2l : List (List LocalDof)) (count : Int),
      (assignDofsLoop seg L l2g g2l count).2.1 =
        g2l ++ (L.filter seg).map (fun e => [⟨e, 0⟩]) := by
  intro L
  induction L with
  | nil => intro l2g g2l count; simp [assignDofsLoop]
  | cons e rest ih =>
    intro l2g g2l count
    unfold assignDofsLoop
    cases hseg : seg e with
    | true =>
      simp only [hseg, if_true]
      rw [ih]
      simp [List.filter_cons, hseg]
    | false =>
      simp only [hseg, Bool.false_eq_true, if_false]
      rw [ih]
      simp [List.filter_cons, hseg]

theorem assignDofsLoop_l2g (seg : Nat → Bool) :
    ∀ (L : List Nat), L.Nodup →
      ∀ (l2g : Nat → List Int) (g2l : List (List LocalDof)) (count : Int)
        (k : Nat) (hk : k < L.length),
      (assignDofsLoop seg L l2g g2l count).1 (L.get ⟨k, hk⟩) =
        if seg (L.get ⟨k, hk⟩) then [count + ((L.take k).countP seg : Int)] else [-1] := by
  intro L
  induction L with
  | nil => intro _ _ _ _ k hk; exact absurd hk (by simp)
  | cons e rest ih =>
    intro hnd l2g g2l count k hk
    rw [List.nodup_cons] at hnd
    match k with
    | 0 =>
      unfold assignDofsLoop
      cases hseg : seg e with
      | true =>
        simp only [hseg, if_true, List.get]
        rw [assignDofsLoop_preserve seg rest _ _ _ e hnd.1]
        simp [hseg]
      | false =>
        simp only [hseg, Bool.false_eq_true, if_false, List.get]
        rw [assignDofsLoop_preserve seg rest _ _ _ e hnd.1]
        simp [hseg]
    | k' + 1 =>
      have hk' : k' < rest.length := by simpa using hk
      have hget : (e :: rest).get ⟨k' + 1, hk⟩ = rest.get ⟨k', hk'⟩ := rfl
      unfold assignDofsLoop
      cases hseg : seg e with
      | true =>
        simp only [hseg, if_true, hget]
        rw [ih hnd.2 _ _ _ k' hk']
        rw [List.take_succ_cons, List.countP_cons]
        simp only [hseg, if_true]
        split
        · rw [List.cons.injEq]
          exact ⟨by push_cast; omega, rfl⟩
        · rfl
      | false =>
        simp only [hseg, Bool.false_eq_true, if_false, hget]
        rw [ih hnd.2 _ _ _ k' hk']
        rw [List.take_succ_cons, List.countP_cons]
        simp only [hseg, Bool.false_eq_true, if_false]
        split
        · rw [List.cons.injEq]
          exact ⟨by push_cast; omega, rfl⟩
        · rfl

theorem countP_take_strict_mono (seg : Nat → Bool) (L : List Nat) (k1 k2 : Nat)
    (hk1 : k1 < L.length) (h12 : k1 < k2)
    (hseg : seg (L.get ⟨k1, hk1⟩) = true) :
    (L.take k1).countP seg < (L.take k2).countP seg := by
  have hsucc : L.take (k1 + 1) = L.take k1 ++ [L.get ⟨k1, hk1⟩] := by
    rw [List.take_succ]
    rw [List.getElem?_eq_getElem hk1]
    rfl
  have hone : List.countP seg [L.get ⟨k1, hk1⟩] = 1 := by
    rw [List.countP_cons, List.countP_nil, hseg]
    decide
  have hcount1 : (L.take (k1 + 1)).countP seg = (L.take k1).countP seg + 1 := by
    rw [hsucc, List.countP_append, hone]
  have hdecomp : L.take k2 = L.take (k1 + 1) ++ (L.take k2).drop (k1 + 1) := by
    have := List.take_append_drop (k1 + 1) (L.take k2)
    rw [List.take_take] at this
    rw [Nat.min_eq_left h12] at this
    exact this.symm
  calc (L.take k1).countP seg < (L.take (k1 + 1)).countP seg := by omega
    _ ≤ (L.take k2).countP seg := by
        rw [hdecomp, List.countP_append]; omega

/-- C9: after assignDofsImpl over a grid segment — with the mapper's entity indices
distinct over the iterated elements and within the element count — globalDofCount
equals the number of elements the segment contains; the element visited at position k,
if contained, is assigned the single global DOF index equal to the number of contained
elements seen before it (so the indices run consecutively from 0 in
element-iteration order and are pairwise distinct), and every element outside the
segment is assigned global DOF index -1. -/
theorem assignDofsImpl_spec (elementCount : Nat) (elements : List Nat) (seg : Nat → Bool)
    (hnd : elements.Nodup) (_hlt : ∀ e ∈ elements, e < elementCount) :
    (assignDofsImpl elementCount elements seg).globalDofCount = elements.countP seg ∧
    (∀ k, ∀ hk : k < elements.length,
      (seg (elements.get ⟨k, hk⟩) = true →
        (assignDofsImpl elementCount elements seg).m_local2globalDofs
          (elements.get ⟨k, hk⟩) = [((elements.take k).countP seg : Int)]) ∧
      (seg (elements.get ⟨k, hk⟩) = false →
        (assignDofsImpl elementCount elements seg).m_local2globalDofs
          (elements.get ⟨k, hk⟩) = [-1])) ∧
    (∀ k1 k2, ∀ hk1 : k1 < elements.length, ∀ hk2 : k2 < elements.length, k1 ≠ k2 →
      seg (elements.get ⟨k1, hk1⟩) = true → seg (elements.get ⟨k2, hk2⟩) = true →
      (assignDofsImpl elementCount elements seg).m_local2globalDofs
          (elements.get ⟨k1, hk1⟩) ≠
        (assignDofsImpl elementCount elements seg).m_local2globalDofs
          (elements.get ⟨k2, hk2⟩)) := by
  have hchar := fun k hk => assignDofsLoop_l2g seg elements hnd (fun _ => []) [] 0 k hk
  refine ⟨?_, ?_, ?_⟩
  · show (assignDofsLoop seg elements (fun _ => []) [] 0).2.1.length = _
    rw [assignDofsLoop_g2l]
    simp [List.countP_eq_length_filter]
  · intro k hk
    constructor
    · intro hseg
      show (assignDofsLoop seg elements (fun _ => []) [] 0).1 _ = _
      rw [hchar k hk, if_pos hseg]
      norm_num
    · intro hseg
      show (assignDofsLoop seg elements (fun _ => []) [] 0).1 _ = _
      rw [hchar k hk, if_neg]
      rw [hseg]
      simp
  · intro k1 k2 hk1 hk2 hne hs1 hs2
    show (assignDofsLoop seg elements (fun _ => []) [] 0).1 _ ≠
      (assignDofsLoop seg elements (fun _ => []) [] 0).1 _
    rw [hchar k1 hk1, hchar k2 hk2, if_pos hs1, if_pos hs2]
    have hcc : (elements.take k1).countP seg ≠ (elements.take k2).countP seg := by
      rcases Nat.lt_or_ge k1 k2 with h12 | h21
      · exact Nat.ne_of_lt (countP_take_strict_mono seg elements k1 k2 hk1 h12 hs1)
      · have h21' : k2 < k1 := by omega
        exact (Nat.ne_of_lt (countP_take_strict_mono seg elements k2 k1 hk2 h21' hs2)).symm
    intro hcontra
    rw [List.cons.injEq] at hcontra
    have hval := hcontra.1
    omega

end Bempp

namespace Bempp

/-- Witness for C9: three elements iterated in order [2, 0, 1] over a segment
containing every element except 1 receive two consecutive global DOFs. -/
theorem assignDofsImpl_spec_witness :
    ([2, 0, 1] : List Nat).Nodup ∧ (∀ e ∈ ([2, 0, 1] : List Nat), e < 3) ∧
    (assignDofsImpl 3 [2, 0, 1] (fun e => e != 1)).globalDofCount =
      ([2, 0, 1] : List Nat).countP (fun e => e != 1) :=
  ⟨by decide, by decide,
    (assignDofsImpl_spec 3 [2, 0, 1] (fun e => e != 1) (by decide) (by decide)).1⟩

end Bempp

namespace HMat

variable {R : Type} [CommRing R] [DecidableEq R]

theorem permuteCore_entry_inv (p q : Nat → Nat) (mat : Mat R)
    (hpq : ∀ i, i < mat.rows → p i < mat.rows ∧ q (p i) = i)
    (hqp : ∀ i, i < mat.rows → q i < mat.rows ∧ p (q i) = i)
    (r : Nat) (hr : r < mat.rows) (j : Nat) :
    (permuteCore p mat).entries r j = mat.entries (q r) j := by
  have hinj : ∀ a b, a < mat.rows → b < mat.rows → p a = p b → a = b := by
    intro a b ha hb he
    rw [← (hpq a ha).2, ← (hpq b hb).2, he]
  have h1 := permuteCore_entry p mat hinj (q r) (hqp r hr).1 j
  rw [(hqp r hr).2] at h1
  exact h1

theorem applyLeafStep_rows (trans : TransposeMode) (alpha : R) (xPermuted yAcc : Mat R)
    (elem : BlockClusterTreeNode × HMatrixData R) :
    (applyLeafStep trans alpha xPermuted yAcc elem).rows = yAcc.rows :=
  rfl

theorem applyLeafStep_cols (trans : TransposeMode) (alpha : R) (xPermuted yAcc : Mat R)
    (elem : BlockClusterTreeNode × HMatrixData R) :
    (applyLeafStep trans alpha xPermuted yAcc elem).cols = yAcc.cols :=
  rfl

theorem applyLoop_rows (trans : TransposeMode) (alpha : R) (xPermuted : Mat R)
    (L : List (BlockClusterTreeNode × HMatrixData R)) :
    ∀ y : Mat R, (L.foldl (applyLeafStep trans alpha xPermuted) y).rows = y.rows := by
  induction L with
  | nil => intro y; rfl
  | cons e rest ih =>
    intro y
    rw [List.foldl_cons, ih]
    rfl

theorem applyLoop_cols (trans : TransposeMode) (alpha : R) (xPermuted : Mat R)
    (L : List (BlockClusterTreeNode × HMatrixData R)) :
    ∀ y : Mat R, (L.foldl (applyLeafStep trans alpha xPermuted) y).cols = y.cols := by
  induction L with
  | nil => intro y; rfl
  | cons e rest ih =>
    intro y
    rw [List.foldl_cons, ih]
    rfl

/-- One NOTRANS leaf step adds, on each output row inside the leaf's row range, the
alpha-scaled partial product of the leaf block against the rows of the permuted input
selected by the leaf's column range. -/
theorem applyLeafStep_entry_notrans (alpha : R) (xPermuted yAcc : Mat R)
    (elem : BlockClusterTreeNode × HMatrixData R) (i j : Nat) :
    (applyLeafStep TransposeMode.NOTRANS alpha xPermuted yAcc elem).entries i j =
      yAcc.entries i j +
        (if elem.1.rowIndexRange.1 ≤ i ∧
            i < elem.1.rowIndexRange.1 + (elem.1.rowIndexRange.2 - elem.1.rowIndexRange.1) then
          alpha * ∑ k in Finset.range elem.2.cols,
            elem.2.entries (i - elem.1.rowIndexRange.1) k *
              xPermuted.entries (elem.1.colIndexRange.1 + k) j
        else 0) := by
  have hstep : applyLeafStep TransposeMode.NOTRANS alpha xPermuted yAcc elem =
      Mat.writeBlock yAcc elem.1.rowIndexRange.1
        (HMatrixData.apply elem.2
          (xPermuted.block elem.1.colIndexRange.1
            (elem.1.colIndexRange.2 - elem.1.colIndexRange.1))
          (yAcc.block elem.1.rowIndexRange.1
            (elem.1.rowIndexRange.2 - elem.1.rowIndexRange.1))
          TransposeMode.NOTRANS alpha 1)
        (elem.1.rowIndexRange.2 - elem.1.rowIndexRange.1) := rfl
  rw [hstep]
  show (if elem.1.rowIndexRange.1 ≤ i ∧
        i < elem.1.rowIndexRange.1 + (elem.1.rowIndexRange.2 - elem.1.rowIndexRange.1) then
      alpha * (∑ k in Finset.range elem.2.cols,
        elem.2.entries (i - elem.1.rowIndexRange.1) k *
          xPermuted.entries (elem.1.colIndexRange.1 + k) j) +
        1 * yAcc.entries (elem.1.rowIndexRange.1 + (i - elem.1.rowIndexRange.1)) j
    else yAcc.entries i j) = _
  split
  · rename_i hin
    rw [Nat.add_sub_cancel' hin.1]
    ring
  · ring

theorem applyLoop_entry_notrans (alpha : R) (xPermuted : Mat R)
    (L : List (BlockClusterTreeNode × HMatrixData R)) :
    ∀ (y : Mat R) (i j : Nat),
    (L.foldl (applyLeafStep TransposeMode.NOTRANS alpha xPermuted) y).entries i j =
      y.entries i j + (L.map (fun e =>
        if e.1.rowIndexRange.1 ≤ i ∧
            i < e.1.rowIndexRange.1 + (e.1.rowIndexRange.2 - e.1.rowIndexRange.1) then
          alpha * ∑ k in Finset.range e.2.cols,
            e.2.entries (i - e.1.rowIndexRange.1) k *
              xPermuted.entries (e.1.colIndexRange.1 + k) j
        else 0)).sum := by
  induction L with
  | nil => intro y i j; simp
  | cons e rest ih =>
    intro y i j
    rw [List.foldl_cons, ih, applyLeafStep_entry_notrans]
    rw [List.map_cons, List.sum_cons]
    ring

theorem list_map_sum_swap {α : Type} (L : List α) (n : Nat) (F : α → Nat → R) :
    (L.map (fun e => ∑ k in Finset.range n, F e k)).sum =
      ∑ k in Finset.range n, (L.map (fun e => F e k)).sum := by
  induction L with
  | nil => simp
  | cons e rest ih =>
    rw [List.map_cons, List.sum_cons, ih]
    rw [← Finset.sum_add_distrib]
    apply Finset.sum_congr rfl
    intro k _
    rw [List.map_cons, List.sum_cons]

theorem list_map_sum_ite_count {α : Type} (L : List α) (q : α → Prop) [DecidablePred q]
    (c : R) :
    (L.map (fun e => if q e then c else 0)).sum = (L.countP (fun e => decide (q e))) * c := by
  induction L with
  | nil => simp
  | cons e rest ih =>
    rw [List.map_cons, List.sum_cons, ih]
    by_cases hq : q e
    · simp [List.countP_cons, hq]
      ring
    · simp [List.countP_cons, hq]

theorem sum_range_offset_eq (n c0 c1 : Nat) (h1 : c0 ≤ c1) (h2 : c1 ≤ n) (f : Nat → R) :
    (∑ k in Finset.range (c1 - c0), f (c0 + k)) =
      ∑ k in Finset.range n, if c0 ≤ k ∧ k < c1 then f k else 0 := by
  have e1 : (∑ k in Finset.Ico c0 c1, f k) = ∑ k in Finset.range (c1 - c0), f (c0 + k) :=
    Finset.sum_Ico_eq_sum_range f c0 c1
  rw [← e1]
  have e2 : ∀ k ∈ Finset.range n,
      (if c0 ≤ k ∧ k < c1 then f k else 0) = if k ∈ Finset.Ico c0 c1 then f k else 0 := by
    intro k _
    simp [Finset.mem_Ico]
  rw [Finset.sum_congr rfl e2, Finset.sum_ite_mem]
  congr 1
  have hsub : Finset.Ico c0 c1 ⊆ Finset.range n := by
    intro k hk
    rw [Finset.mem_Ico] at hk
    rw [Finset.mem_range]
    omega
  exact (Finset.inter_eq_right.mpr hsub).symm

theorem sum_range_reindex_perm (n : Nat) (p q : Nat → Nat)
    (hpq : ∀ i, i < n → p i < n ∧ q (p i) = i)
    (hqp : ∀ i, i < n → q i < n ∧ p (q i) = i)
    (G : Nat → R) :
    (∑ k in Finset.range n, G (p k)) = ∑ k in Finset.range n, G k := by
  have hinj : ∀ x ∈ Finset.range n, ∀ y ∈ Finset.range n, p x = p y → x = y := by
    intro a ha b hb he
    rw [Finset.mem_range] at ha hb
    rw [← (hpq a ha).2, ← (hpq b hb).2, he]
  have himg : Finset.image p (Finset.range n) = Finset.range n := by
    apply Finset.ext
    intro r
    rw [Finset.mem_image]
    constructor
    · rintro ⟨i, hi, rfl⟩
      rw [Finset.mem_range] at hi ⊢
      exact (hpq i hi).1
    · intro hr
      rw [Finset.mem_range] at hr
      exact ⟨q r, by rw [Finset.mem_range]; exact (hqp r hr).1, (hqp r hr).2⟩
  calc (∑ k in Finset.range n, G (p k))
      = ∑ r in Finset.image p (Finset.range n), G r := (Finset.sum_image hinj).symm
    _ = ∑ k in Finset.range n, G k := by rw [himg]

end HMat

namespace HMat

variable {R : Type} [CommRing R] [DecidableEq R]

theorem permuteMatToHMatDofs_ok (h : HMatrix R) (mat : Mat R) (rc : RowColSelector)
    (hr : (h.addressedClusterTree rc).numberOfDofs = mat.rows) :
    h.permuteMatToHMatDofs mat rc =
      Except.ok (permuteCore (h.addressedClusterTree rc).mapOriginalDofToHMatDof mat) := by
  unfold HMatrix.permuteMatToHMatDofs
  rw [if_neg]
  omega

theorem permuteMatToOriginalDofs_ok (h : HMatrix R) (mat : Mat R) (rc : RowColSelector)
    (hr : (h.addressedClusterTree rc).numberOfDofs = mat.rows) :
    h.permuteMatToOriginalDofs mat rc =
      Except.ok (permuteCore (h.addressedClusterTree rc).mapHMatDofToOriginalDof mat) := by
  unfold HMatrix.permuteMatToOriginalDofs
  rw [if_neg]
  omega

/-- With beta = 0 and NOTRANS, apply reduces to: permute X by COL, accumulate every
leaf over the permuted zeroed Y, and permute the accumulator back by ROW. -/
theorem apply_eq_notrans (h : HMatrix R) (X Y : Mat R) (alpha : R)
    (hx : X.rows = h.blockClusterTree.columnClusterTree.numberOfDofs)
    (hy : Y.rows = h.blockClusterTree.rowClusterTree.numberOfDofs) :
    h.apply X Y TransposeMode.NOTRANS alpha 0 =
      h.permuteMatToOriginalDofs
        (h.m_hMatrixData.foldl
          (applyLeafStep TransposeMode.NOTRANS alpha
            (permuteCore h.blockClusterTree.columnClusterTree.mapOriginalDofToHMatDof X))
          (permuteCore h.blockClusterTree.rowClusterTree.mapOriginalDofToHMatDof (Y.zeros)))
        RowColSelector.ROW := by
  unfold HMatrix.apply
  have htr : (TransposeMode.NOTRANS = TransposeMode.NOTRANS) = True := eq_true rfl
  have hb : ((0 : R) = 0) = True := eq_true rfl
  simp only [htr, hb, if_true]
  rw [permuteMatToHMatDofs_ok h X RowColSelector.COL hx.symm]
  rw [permuteMatToHMatDofs_ok h (Y.zeros) RowColSelector.ROW hy.symm]
  rfl

end HMat

namespace HMat

variable {R : Type} [CommRing R] [DecidableEq R]

/-- C1: for an initialized Hierarchical Matrix whose stored Block Data are exactly the
dense blocks of the operator A (read through the two index bijections), whose block
rectangles tile the full index rectangle, and for X of matching shape, apply with
NOTRANS, alpha = 1, beta = 0 returns the ordinary dense product A * X in the caller's
original ordering. -/
theorem apply_dense_equals_product (h : HMatrix R) (A X Y : Mat R)
    (hrperm : h.blockClusterTree.rowClusterTree.IsPermutation)
    (hcperm : h.blockClusterTree.columnClusterTree.IsPermutation)
    (hX : X.rows = h.columns)
    (hYr : Y.rows = h.rows) (hYc : Y.cols = X.cols)
    (hwf : ∀ e ∈ h.m_hMatrixData,
      e.1.rowIndexRange.1 ≤ e.1.rowIndexRange.2 ∧ e.1.rowIndexRange.2 ≤ h.rows ∧
      e.1.colIndexRange.1 ≤ e.1.colIndexRange.2 ∧ e.1.colIndexRange.2 ≤ h.columns)
    (hdense : ∀ e ∈ h.m_hMatrixData,
      e.2.rows = e.1.rowIndexRange.2 - e.1.rowIndexRange.1 ∧
      e.2.cols = e.1.colIndexRange.2 - e.1.colIndexRange.1 ∧
      (∀ a, a < e.2.rows → ∀ b, b < e.2.cols →
        e.2.entries a b = A.entries
          (h.blockClusterTree.rowClusterTree.mapHMatDofToOriginalDof
            (e.1.rowIndexRange.1 + a))
          (h.blockClusterTree.columnClusterTree.mapHMatDofToOriginalDof
            (e.1.colIndexRange.1 + b))))
    (htile : ∀ p, p < h.rows → ∀ k, k < h.columns →
      h.m_hMatrixData.countP (fun e =>
        decide ((e.1.rowIndexRange.1 ≤ p ∧ p < e.1.rowIndexRange.2) ∧
          (e.1.colIndexRange.1 ≤ k ∧ k < e.1.colIndexRange.2))) = 1) :
    ∃ Yout, h.apply X Y TransposeMode.NOTRANS 1 0 = Except.ok Yout ∧
      Yout.rows = Y.rows ∧ Yout.cols = Y.cols ∧
      ∀ i, i < h.rows → ∀ j, j < X.cols →
        Yout.entries i j =
          ∑ k in Finset.range h.columns, A.entries i k * X.entries k j := by
  have happly := apply_eq_notrans h X Y 1 hX hYr
  set xP := permuteCore h.blockClusterTree.columnClusterTree.mapOriginalDofToHMatDof X
    with hxPdef
  set yZ := permuteCore h.blockClusterTree.rowClusterTree.mapOriginalDofToHMatDof (Y.zeros)
    with hyZdef
  set yAccum := h.m_hMatrixData.foldl (applyLeafStep TransposeMode.NOTRANS 1 xP) yZ
    with hyAccumdef
  have hacc_rows : yAccum.rows = Y.rows := by
    rw [hyAccumdef, applyLoop_rows]
    rfl
  have hacc_cols : yAccum.cols = Y.cols := by
    rw [hyAccumdef, applyLoop_cols]
    rfl
  have hfin := permuteMatToOriginalDofs_ok h yAccum RowColSelector.ROW
    (by rw [hacc_rows, hYr]; rfl)
  rw [hfin] at happly
  refine ⟨permuteCore
    (h.addressedClusterTree RowColSelector.ROW).mapHMatDofToOriginalDof yAccum,
    happly, ?_, ?_, ?_⟩
  · rw [permuteCore_rows, hacc_rows]
  · rw [permuteCore_cols, hacc_cols]
  · intro i hi j _
    have hiR : i < h.blockClusterTree.rowClusterTree.numberOfDofs := hi
    -- invert the final ROW permutation
    have hpqR : ∀ r, r < yAccum.rows →
        h.blockClusterTree.rowClusterTree.mapHMatDofToOriginalDof r < yAccum.rows ∧
        h.blockClusterTree.rowClusterTree.mapOriginalDofToHMatDof
          (h.blockClusterTree.rowClusterTree.mapHMatDofToOriginalDof r) = r := by
      intro r hr
      rw [hacc_rows, hYr] at hr
      exact ⟨by rw [hacc_rows, hYr]; exact (hrperm.2 r hr).1, (hrperm.2 r hr).2⟩
    have hqpR : ∀ r, r < yAccum.rows →
        h.blockClusterTree.rowClusterTree.mapOriginalDofToHMatDof r < yAccum.rows ∧
        h.blockClusterTree.rowClusterTree.mapHMatDofToOriginalDof
          (h.blockClusterTree.rowClusterTree.mapOriginalDofToHMatDof r) = r := by
      intro r hr
      rw [hacc_rows, hYr] at hr
      exact ⟨by rw [hacc_rows, hYr]; exact (hrperm.1 r hr).1, (hrperm.1 r hr).2⟩
    have hYout_entry : (permuteCore
        (h.addressedClusterTree RowColSelector.ROW).mapHMatDofToOriginalDof yAccum).entries
          i j =
        yAccum.entries (h.blockClusterTree.rowClusterTree.mapOriginalDofToHMatDof i) j :=
      permuteCore_entry_inv _ _ yAccum hpqR hqpR i (by rw [hacc_rows, hYr]; exact hi) j
    rw [hYout_entry]
    set p := h.blockClusterTree.rowClusterTree.mapOriginalDofToHMatDof i with hpdef
    have hpR : p < h.blockClusterTree.rowClusterTree.numberOfDofs := (hrperm.1 i hiR).1
    have hpOrig : h.blockClusterTree.rowClusterTree.mapHMatDofToOriginalDof p = i :=
      (hrperm.1 i hiR).2
    -- unfold the accumulation loop
    rw [hyAccumdef, applyLoop_entry_notrans, hyZdef, permuteCore_zeros, zero_add]
    -- inverses for the column permutation applied to X
    have hpqC : ∀ r, r < X.rows →
        h.blockClusterTree.columnClusterTree.mapOriginalDofToHMatDof r < X.rows ∧
        h.blockClusterTree.columnClusterTree.mapHMatDofToOriginalDof
          (h.blockClusterTree.columnClusterTree.mapOriginalDofToHMatDof r) = r := by
      intro r hr
      rw [hX] at hr
      exact ⟨by rw [hX]; exact (hcperm.1 r hr).1, (hcperm.1 r hr).2⟩
    have hqpC : ∀ r, r < X.rows →
        h.blockClusterTree.columnClusterTree.mapHMatDofToOriginalDof r < X.rows ∧
        h.blockClusterTree.columnClusterTree.mapOriginalDofToHMatDof
          (h.blockClusterTree.columnClusterTree.mapHMatDofToOriginalDof r) = r := by
      intro r hr
      rw [hX] at hr
      exact ⟨by rw [hX]; exact (hcperm.2 r hr).1, (hcperm.2 r hr).2⟩
    -- per-leaf reshaping of the contribution
    have hleaf : ∀ e ∈ h.m_hMatrixData,
        (if e.1.rowIndexRange.1 ≤ p ∧
            p < e.1.rowIndexRange.1 + (e.1.rowIndexRange.2 - e.1.rowIndexRange.1) then
          1 * ∑ k in Finset.range e.2.cols,
            e.2.entries (p - e.1.rowIndexRange.1) k *
              xP.entries (e.1.colIndexRange.1 + k) j
        else 0) =
        ∑ k in Finset.range h.blockClusterTree.columnClusterTree.numberOfDofs,
          if (e.1.rowIndexRange.1 ≤ p ∧ p < e.1.rowIndexRange.2) ∧
              (e.1.colIndexRange.1 ≤ k ∧ k < e.1.colIndexRange.2) then
            A.entries i (h.blockClusterTree.columnClusterTree.mapHMatDofToOriginalDof k) *
              X.entries (h.blockClusterTree.columnClusterTree.mapHMatDofToOriginalDof k) j
          else 0 := by
      intro e he
      obtain ⟨hr01, hr2, hc01, hc2⟩ := hwf e he
      obtain ⟨hdr, hdc, hde⟩ := hdense e he
      by_cases hrow : e.1.rowIndexRange.1 ≤ p ∧ p < e.1.rowIndexRange.2
      · have hrow' : e.1.rowIndexRange.1 ≤ p ∧
            p < e.1.rowIndexRange.1 + (e.1.rowIndexRange.2 - e.1.rowIndexRange.1) := by
          omega
        rw [if_pos hrow', one_mul]
        have hsum1 : (∑ k in Finset.range e.2.cols,
            e.2.entries (p - e.1.rowIndexRange.1) k *
              xP.entries (e.1.colIndexRange.1 + k) j) =
            ∑ k in Finset.range (e.1.colIndexRange.2 - e.1.colIndexRange.1),
              A.entries i (h.blockClusterTree.columnClusterTree.mapHMatDofToOriginalDof
                  (e.1.colIndexRange.1 + k)) *
                X.entries (h.blockClusterTree.columnClusterTree.mapHMatDofToOriginalDof
                  (e.1.colIndexRange.1 + k)) j := by
          rw [hdc]
          apply Finset.sum_congr rfl
          intro k hk
          rw [Finset.mem_range] at hk
          have hd := hde (p - e.1.rowIndexRange.1) (by omega) k (by omega)
          rw [hd]
          have hfix : e.1.rowIndexRange.1 + (p - e.1.rowIndexRange.1) = p := by omega
          rw [hfix, hpOrig]
          have hxp : xP.entries (e.1.colIndexRange.1 + k) j =
              X.entries (h.blockClusterTree.columnClusterTree.mapHMatDofToOriginalDof
                (e.1.colIndexRange.1 + k)) j :=
            permuteCore_entry_inv _ _ X hpqC hqpC (e.1.colIndexRange.1 + k)
              (by rw [hX]; omega) j
          rw [hxp]
        rw [hsum1]
        rw [sum_range_offset_eq h.blockClusterTree.columnClusterTree.numberOfDofs
          e.1.colIndexRange.1 e.1.colIndexRange.2 hc01 hc2
          (fun kk =>
            A.entries i (h.blockClusterTree.columnClusterTree.mapHMatDofToOriginalDof kk) *
              X.entries (h.blockClusterTree.columnClusterTree.mapHMatDofToOriginalDof kk) j)]
        apply Finset.sum_congr rfl
        intro k _
        by_cases hcol : e.1.colIndexRange.1 ≤ k ∧ k < e.1.colIndexRange.2
        · rw [if_pos hcol, if_pos ⟨hrow, hcol⟩]
        · rw [if_neg hcol, if_neg (fun hcon => hcol hcon.2)]
      · have hrow' : ¬(e.1.rowIndexRange.1 ≤ p ∧
            p < e.1.rowIndexRange.1 + (e.1.rowIndexRange.2 - e.1.rowIndexRange.1)) :=
          fun hcon => hrow ⟨hcon.1, by omega⟩
        rw [if_neg hrow']
        symm
        apply Finset.sum_eq_zero
        intro k _
        rw [if_neg (fun hcon => hrow hcon.1)]
    rw [List.map_congr_left hleaf]
    rw [list_map_sum_swap]
    have hmid : ∀ k ∈ Finset.range h.blockClusterTree.columnClusterTree.numberOfDofs,
        (h.m_hMatrixData.map (fun e =>
          if (e.1.rowIndexRange.1 ≤ p ∧ p < e.1.rowIndexRange.2) ∧
              (e.1.colIndexRange.1 ≤ k ∧ k < e.1.colIndexRange.2) then
            A.entries i (h.blockClusterTree.columnClusterTree.mapHMatDofToOriginalDof k) *
              X.entries (h.blockClusterTree.columnClusterTree.mapHMatDofToOriginalDof k) j
          else 0)).sum =
        A.entries i (h.blockClusterTree.columnClusterTree.mapHMatDofToOriginalDof k) *
          X.entries (h.blockClusterTree.columnClusterTree.mapHMatDofToOriginalDof k) j := by
      intro k hk
      rw [Finset.mem_range] at hk
      rw [list_map_sum_ite_count]
      rw [htile p hpR k hk]
      simp
    rw [Finset.sum_congr rfl hmid]
    exact sum_range_reindex_perm h.blockClusterTree.columnClusterTree.numberOfDofs
      h.blockClusterTree.columnClusterTree.mapHMatDofToOriginalDof
      h.blockClusterTree.columnClusterTree.mapOriginalDofToHMatDof
      hcperm.2 hcperm.1 (fun kk => A.entries i kk * X.entries kk j)

end HMat

namespace HMat

variable {R : Type} [CommRing R] [DecidableEq R]

/-- Witness for C1: a 2-by-2 operator over an identity row permutation and a swap
column permutation, stored as one exact dense leaf, applied to the identity input. -/
theorem apply_dense_equals_product_witness :
    ((⟨⟨⟨2, fun a => a, fun a => a⟩, ⟨2, fun a => 1 - a, fun a => 1 - a⟩, [⟨(0, 2), (0, 2)⟩]⟩, [(⟨(0, 2), (0, 2)⟩, ⟨2, 2, fun a b => if a = 0 then (if b = 0 then (2 : ℤ) else 1) else (if b = 0 then 4 else 3)⟩)]⟩ : HMatrix ℤ).blockClusterTree.rowClusterTree.IsPermutation ∧
      (⟨⟨⟨2, fun a => a, fun a => a⟩, ⟨2, fun a => 1 - a, fun a => 1 - a⟩, [⟨(0, 2), (0, 2)⟩]⟩, [(⟨(0, 2), (0, 2)⟩, ⟨2, 2, fun a b => if a = 0 then (if b = 0 then (2 : ℤ) else 1) else (if b = 0 then 4 else 3)⟩)]⟩ : HMatrix ℤ).blockClusterTree.columnClusterTree.IsPermutation ∧
      (⟨2, 2, fun a b => if a = b then (1 : ℤ) else 0⟩ : Mat ℤ).rows = (⟨⟨⟨2, fun a => a, fun a => a⟩, ⟨2, fun a => 1 - a, fun a => 1 - a⟩, [⟨(0, 2), (0, 2)⟩]⟩, [(⟨(0, 2), (0, 2)⟩, ⟨2, 2, fun a b => if a = 0 then (if b = 0 then (2 : ℤ) else 1) else (if b = 0 then 4 else 3)⟩)]⟩ : HMatrix ℤ).columns ∧
      (⟨2, 2, fun _ _ => (0 : ℤ)⟩ : Mat ℤ).rows = (⟨⟨⟨2, fun a => a, fun a => a⟩, ⟨2, fun a => 1 - a, fun a => 1 - a⟩, [⟨(0, 2), (0, 2)⟩]⟩, [(⟨(0, 2), (0, 2)⟩, ⟨2, 2, fun a b => if a = 0 then (if b = 0 then (2 : ℤ) else 1) else (if b = 0 then 4 else 3)⟩)]⟩ : HMatrix ℤ).rows ∧
      (⟨2, 2, fun _ _ => (0 : ℤ)⟩ : Mat ℤ).cols = (⟨2, 2, fun a b => if a = b then (1 : ℤ) else 0⟩ : Mat ℤ).cols ∧
      (∀ e ∈ (⟨⟨⟨2, fun a => a, fun a => a⟩, ⟨2, fun a => 1 - a, fun a => 1 - a⟩, [⟨(0, 2), (0, 2)⟩]⟩, [(⟨(0, 2), (0, 2)⟩, ⟨2, 2, fun a b => if a = 0 then (if b = 0 then (2 : ℤ) else 1) else (if b = 0 then 4 else 3)⟩)]⟩ : HMatrix ℤ).m_hMatrixData,
        e.1.rowIndexRange.1 ≤ e.1.rowIndexRange.2 ∧
        e.1.rowIndexRange.2 ≤ (⟨⟨⟨2, fun a => a, fun a => a⟩, ⟨2, fun a => 1 - a, fun a => 1 - a⟩, [⟨(0, 2), (0, 2)⟩]⟩, [(⟨(0, 2), (0, 2)⟩, ⟨2, 2, fun a b => if a = 0 then (if b = 0 then (2 : ℤ) else 1) else (if b = 0 then 4 else 3)⟩)]⟩ : HMatrix ℤ).rows ∧
        e.1.colIndexRange.1 ≤ e.1.colIndexRange.2 ∧
        e.1.colIndexRange.2 ≤ (⟨⟨⟨2, fun a => a, fun a => a⟩, ⟨2, fun a => 1 - a, fun a => 1 - a⟩, [⟨(0, 2), (0, 2)⟩]⟩, [(⟨(0, 2), (0, 2)⟩, ⟨2, 2, fun a b => if a = 0 then (if b = 0 then (2 : ℤ) else 1) else (if b = 0 then 4 else 3)⟩)]⟩ : HMatrix ℤ).columns) ∧
      (∀ e ∈ (⟨⟨⟨2, fun a => a, fun a => a⟩, ⟨2, fun a => 1 - a, fun a => 1 - a⟩, [⟨(0, 2), (0, 2)⟩]⟩, [(⟨(0, 2), (0, 2)⟩, ⟨2, 2, fun a b => if a = 0 then (if b = 0 then (2 : ℤ) else 1) else (if b = 0 then 4 else 3)⟩)]⟩ : HMatrix ℤ).m_hMatrixData,
        e.2.rows = e.1.rowIndexRange.2 - e.1.rowIndexRange.1 ∧
        e.2.cols = e.1.colIndexRange.2 - e.1.colIndexRange.1 ∧
        (∀ a, a < e.2.rows → ∀ b, b < e.2.cols →
          e.2.entries a b = (⟨2, 2, fun a b => if a = 0 then (if b = 0 then (1 : ℤ) else 2) else (if b = 0 then 3 else 4)⟩ : Mat ℤ).entries
            ((⟨⟨⟨2, fun a => a, fun a => a⟩, ⟨2, fun a => 1 - a, fun a => 1 - a⟩, [⟨(0, 2), (0, 2)⟩]⟩, [(⟨(0, 2), (0, 2)⟩, ⟨2, 2, fun a b => if a = 0 then (if b = 0 then (2 : ℤ) else 1) else (if b = 0 then 4 else 3)⟩)]⟩ : HMatrix ℤ).blockClusterTree.rowClusterTree.mapHMatDofToOriginalDof
              (e.1.rowIndexRange.1 + a))
            ((⟨⟨⟨2, fun a => a, fun a => a⟩, ⟨2, fun a => 1 - a, fun a => 1 - a⟩, [⟨(0, 2), (0, 2)⟩]⟩, [(⟨(0, 2), (0, 2)⟩, ⟨2, 2, fun a b => if a = 0 then (if b = 0 then (2 : ℤ) else 1) else (if b = 0 then 4 else 3)⟩)]⟩ : HMatrix ℤ).blockClusterTree.columnClusterTree.mapHMatDofToOriginalDof
              (e.1.colIndexRange.1 + b)))) ∧
      (∀ p, p < (⟨⟨⟨2, fun a => a, fun a => a⟩, ⟨2, fun a => 1 - a, fun a => 1 - a⟩, [⟨(0, 2), (0, 2)⟩]⟩, [(⟨(0, 2), (0, 2)⟩, ⟨2, 2, fun a b => if a = 0 then (if b = 0 then (2 : ℤ) else 1) else (if b = 0 then 4 else 3)⟩)]⟩ : HMatrix ℤ).rows → ∀ k, k < (⟨⟨⟨2, fun a => a, fun a => a⟩, ⟨2, fun a => 1 - a, fun a => 1 - a⟩, [⟨(0, 2), (0, 2)⟩]⟩, [(⟨(0, 2), (0, 2)⟩, ⟨2, 2, fun a b => if a = 0 then (if b = 0 then (2 : ℤ) else 1) else (if b = 0 then 4 else 3)⟩)]⟩ : HMatrix ℤ).columns →
        (⟨⟨⟨2, fun a => a, fun a => a⟩, ⟨2, fun a => 1 - a, fun a => 1 - a⟩, [⟨(0, 2), (0, 2)⟩]⟩, [(⟨(0, 2), (0, 2)⟩, ⟨2, 2, fun a b => if a = 0 then (if b = 0 then (2 : ℤ) else 1) else (if b = 0 then 4 else 3)⟩)]⟩ : HMatrix ℤ).m_hMatrixData.countP (fun e =>
          decide ((e.1.rowIndexRange.1 ≤ p ∧ p < e.1.rowIndexRange.2) ∧
            (e.1.colIndexRange.1 ≤ k ∧ k < e.1.colIndexRange.2))) = 1)) ∧
    (∃ Yout, HMatrix.apply (⟨⟨⟨2, fun a => a, fun a => a⟩, ⟨2, fun a => 1 - a, fun a => 1 - a⟩, [⟨(0, 2), (0, 2)⟩]⟩, [(⟨(0, 2), (0, 2)⟩, ⟨2, 2, fun a b => if a = 0 then (if b = 0 then (2 : ℤ) else 1) else (if b = 0 then 4 else 3)⟩)]⟩ : HMatrix ℤ) (⟨2, 2, fun a b => if a = b then (1 : ℤ) else 0⟩ : Mat ℤ) (⟨2, 2, fun _ _ => (0 : ℤ)⟩ : Mat ℤ) TransposeMode.NOTRANS 1 0 = Except.ok Yout ∧
      Yout.rows = (⟨2, 2, fun _ _ => (0 : ℤ)⟩ : Mat ℤ).rows ∧ Yout.cols = (⟨2, 2, fun _ _ => (0 : ℤ)⟩ : Mat ℤ).cols ∧
      ∀ i, i < (⟨⟨⟨2, fun a => a, fun a => a⟩, ⟨2, fun a => 1 - a, fun a => 1 - a⟩, [⟨(0, 2), (0, 2)⟩]⟩, [(⟨(0, 2), (0, 2)⟩, ⟨2, 2, fun a b => if a = 0 then (if b = 0 then (2 : ℤ) else 1) else (if b = 0 then 4 else 3)⟩)]⟩ : HMatrix ℤ).rows → ∀ j, j < (⟨2, 2, fun a b => if a = b then (1 : ℤ) else 0⟩ : Mat ℤ).cols →
        Yout.entries i j =
          ∑ k in Finset.range (⟨⟨⟨2, fun a => a, fun a => a⟩, ⟨2, fun a => 1 - a, fun a => 1 - a⟩, [⟨(0, 2), (0, 2)⟩]⟩, [(⟨(0, 2), (0, 2)⟩, ⟨2, 2, fun a b => if a = 0 then (if b = 0 then (2 : ℤ) else 1) else (if b = 0 then 4 else 3)⟩)]⟩ : HMatrix ℤ).columns, (⟨2, 2, fun a b => if a = 0 then (if b = 0 then (1 : ℤ) else 2) else (if b = 0 then 3 else 4)⟩ : Mat ℤ).entries i k * (⟨2, 2, fun a b => if a = b then (1 : ℤ) else 0⟩ : Mat ℤ).entries k j) :=
  ⟨⟨by decide, by decide, by decide, by decide, by decide, by decide, by decide, by decide⟩,
    apply_dense_equals_product (⟨⟨⟨2, fun a => a, fun a => a⟩, ⟨2, fun a => 1 - a, fun a => 1 - a⟩, [⟨(0, 2), (0, 2)⟩]⟩, [(⟨(0, 2), (0, 2)⟩, ⟨2, 2, fun a b => if a = 0 then (if b = 0 then (2 : ℤ) else 1) else (if b = 0 then 4 else 3)⟩)]⟩ : HMatrix ℤ) (⟨2, 2, fun a b => if a = 0 then (if b = 0 then (1 : ℤ) else 2) else (if b = 0 then 3 else 4)⟩ : Mat ℤ) (⟨2, 2, fun a b => if a = b then (1 : ℤ) else 0⟩ : Mat ℤ) (⟨2, 2, fun _ _ => (0 : ℤ)⟩ : Mat ℤ)
      (by decide) (by decide) (by decide) (by decide) (by decide) (by decide) (by decide)
      (by decide)⟩

/-- C2: with an identity row permutation, a swap column permutation, and the single
exact dense leaf of the operator, apply with TRANS, alpha = 1, beta = 0 on the
identity input returns 2 at position (0,0), while the explicitly transposed dense
operator applied with NOTRANS semantics gives 1 there: the accumulated result is
permuted back with the ROW cluster tree (hmatrix_impl.hpp line 158) even though the
transposed operator writes to the column side. -/
theorem apply_trans_back_permutation_bug :
    getEntry (HMatrix.apply (⟨⟨⟨2, fun a => a, fun a => a⟩, ⟨2, fun a => 1 - a, fun a => 1 - a⟩, [⟨(0, 2), (0, 2)⟩]⟩, [(⟨(0, 2), (0, 2)⟩, ⟨2, 2, fun a b => if a = 0 then (if b = 0 then (2 : ℤ) else 1) else (if b = 0 then 4 else 3)⟩)]⟩ : HMatrix ℤ) (⟨2, 2, fun a b => if a = b then (1 : ℤ) else 0⟩ : Mat ℤ) (⟨2, 2, fun _ _ => (0 : ℤ)⟩ : Mat ℤ) TransposeMode.TRANS 1 0) 0 0 = some 2 ∧
    getEntry (HMatrix.apply (⟨⟨⟨2, fun a => a, fun a => a⟩, ⟨2, fun a => 1 - a, fun a => 1 - a⟩, [⟨(0, 2), (0, 2)⟩]⟩, [(⟨(0, 2), (0, 2)⟩, ⟨2, 2, fun a b => if a = 0 then (if b = 0 then (2 : ℤ) else 1) else (if b = 0 then 4 else 3)⟩)]⟩ : HMatrix ℤ) (⟨2, 2, fun a b => if a = b then (1 : ℤ) else 0⟩ : Mat ℤ) (⟨2, 2, fun _ _ => (0 : ℤ)⟩ : Mat ℤ) TransposeMode.TRANS 1 0) 0 0 ≠
      some (∑ k in Finset.range 2, (⟨2, 2, fun a b => if a = 0 then (if b = 0 then (1 : ℤ) else 2) else (if b = 0 then 3 else 4)⟩ : Mat ℤ).entries k 0 * (⟨2, 2, fun a b => if a = b then (1 : ℤ) else 0⟩ : Mat ℤ).entries k 0) := by
  decide

/-- C7: with alpha = 0, beta = 1 and TRANS, the returned Y is the prior Y permuted by
the mismatch between the column permutation (used to bring Y into hierarchical
ordering) and the row permutation (used on line 158 to bring it back): entry (0,0)
comes back 7 although beta * Y_before at (0,0) is 5. -/
theorem apply_trans_alpha_zero_bug :
    getEntry (HMatrix.apply
        (⟨⟨⟨2, fun a => a, fun a => a⟩, ⟨2, fun a => 1 - a, fun a => 1 - a⟩,
          [⟨(0, 2), (0, 2)⟩]⟩, [(⟨(0, 2), (0, 2)⟩, ⟨2, 2, fun _ _ => (0 : ℤ)⟩)]⟩ : HMatrix ℤ)
        (⟨2, 1, fun _ _ => (0 : ℤ)⟩ : Mat ℤ)
        (⟨2, 1, fun i _ => if i = 0 then (5 : ℤ) else 7⟩ : Mat ℤ)
        TransposeMode.TRANS 0 1) 0 0 = some 7 ∧
    (1 : ℤ) * (⟨2, 1, fun i _ => if i = 0 then (5 : ℤ) else 7⟩ : Mat ℤ).entries 0 0 = 5 := by
  decide

end HMat
